import Mathlib

/-
  Verification development for the Small Basic VS Code extension's
  Diagnostics & Compiler-Output Interpretation Engine.

  Strings are modelled as `List Char`.  The JavaScript regular expressions
  used by the source are embedded as executable matchers that reproduce the
  backtracking behaviour of the concrete patterns appearing in the code.
-/

namespace SmallBasic

/-- ASCII lower-casing, as `String.prototype.toLowerCase` acts on the ASCII
characters that appear in the keywords and patterns of this code base. -/
def lowerChar (c : Char) : Char :=
  if 'A' ≤ c ∧ c ≤ 'Z' then Char.ofNat (c.toNat + 32) else c

/-- JS `\s` restricted to the ASCII whitespace characters. -/
def isWs (c : Char) : Bool :=
  c = ' ' ∨ c = '\t' ∨ c = '\n' ∨ c = '\r' ∨ c = Char.ofNat 11 ∨ c = Char.ofNat 12

/-- JS `.` (without the `s` flag): any character except a line terminator. -/
def dotChar (c : Char) : Bool :=
  ¬ (c = '\n' ∨ c = '\r')

/-- JS word character (for `\b` boundaries): `[A-Za-z0-9_]`. -/
def isWordChar (c : Char) : Bool :=
  ('a' ≤ c ∧ c ≤ 'z') ∨ ('A' ≤ c ∧ c ≤ 'Z') ∨ ('0' ≤ c ∧ c ≤ '9') ∨ c = '_'

/-- Case-insensitive literal match of `pat` against a prefix of `s`. -/
def matchCI : List Char → List Char → Bool
  | [], _ => true
  | _ :: _, [] => false
  | p :: ps, c :: cs => (lowerChar c == lowerChar p) && matchCI ps cs

/-- Case-insensitive literal parser: consume `pat`, return the rest. -/
def parseCI : List Char → List Char → Option (List Char)
  | [], s => some s
  | _ :: _, [] => none
  | p :: ps, c :: cs => if lowerChar c == lowerChar p then parseCI ps cs else none

/-- `\s+` (greedy, in a position followed by a non-whitespace requirement):
consume at least one whitespace character and then the maximal run. -/
def wsPlus : List Char → Option (List Char)
  | c :: cs => if isWs c then some (cs.dropWhile isWs) else none
  | [] => none

/-- JS `String.prototype.trim`. -/
def trimJS (s : List Char) : List Char :=
  ((s.dropWhile isWs).reverse.dropWhile isWs).reverse

/-- `String.prototype.split(/\r?\n/)`, accumulator form: a separator is
`\r\n` or a bare `\n`; a `\r` not followed by `\n` is ordinary content.
The Boolean state records a `\r` seen but not yet committed to the current
line (it is dropped when the next character is `\n`, forming the two-byte
separator, and committed otherwise). -/
def splitLinesAux : Bool → List Char → List Char → List (List Char)
  | false, acc, [] => [acc.reverse]
  | true, acc, [] => [('\r' :: acc).reverse]
  | false, acc, c :: rest =>
    if c = '\n' then acc.reverse :: splitLinesAux false [] rest
    else if c = '\r' then splitLinesAux true acc rest
    else splitLinesAux false (c :: acc) rest
  | true, acc, c :: rest =>
    if c = '\n' then acc.reverse :: splitLinesAux false [] rest
    else if c = '\r' then splitLinesAux true ('\r' :: acc) rest
    else splitLinesAux false (c :: '\r' :: acc) rest

/-- `String.prototype.split(/\r?\n/)`. -/
def splitLines (s : List Char) : List (List Char) :=
  splitLinesAux false [] s

/-- The maximal run of digits at the front of `s`, with the rest. -/
def digitsOf (s : List Char) : List Char × List Char :=
  (s.takeWhile Char.isDigit, s.dropWhile Char.isDigit)

/-- Numeric value of a digit string. -/
def natOfDigits (ds : List Char) : Nat :=
  ds.foldl (fun a c => 10 * a + (c.toNat - 48)) 0

/-- A JavaScript number-or-undefined field value, as stored in the `line` and
`column` fields of a compilation error record. -/
inductive JsNum where
  | undef : JsNum
  | nan : JsNum
  | num : Int → JsNum
  deriving DecidableEq

/-- `parseInt(s, 10)`: leading whitespace, optional sign, maximal digit run;
`NaN` when no digit is found. -/
def parseIntJs (s : List Char) : JsNum :=
  let t := s.dropWhile isWs
  match t with
  | '-' :: r =>
    match digitsOf r with
    | ([], _) => JsNum.nan
    | (ds, _) => JsNum.num (-(natOfDigits ds : Int))
  | '+' :: r =>
    match digitsOf r with
    | ([], _) => JsNum.nan
    | (ds, _) => JsNum.num (natOfDigits ds)
  | _ =>
    match digitsOf t with
    | ([], _) => JsNum.nan
    | (ds, _) => JsNum.num (natOfDigits ds)

/-- Lift an optional natural to a `JsNum` (`undefined` when absent). -/
def optNum : Option Nat → JsNum
  | some n => JsNum.num n
  | none => JsNum.undef

/-- Stage 4 of the `:\s+0\s+errors\.` matcher: the second `\s+` run followed
by the literal `errors.`. -/
def zeroAt4 (ds : List Char) : Bool :=
  match wsPlus ds with
  | some u => matchCI "errors.".data u
  | none => false

/-- Stage 3: the literal `0` after the first whitespace run. -/
def zeroAt3 : List Char → Bool
  | c :: ds => if c = '0' then zeroAt4 ds else false
  | [] => false

/-- Stage 2: the first `\s+` run after the colon. -/
def zeroAt2 (cs : List Char) : Bool :=
  match wsPlus cs with
  | some t => zeroAt3 t
  | none => false

/-- The pattern `:\s+0\s+errors\.` (case-insensitive) matching at the start of
`s`.  Both `\s+` runs are forced: each is followed by a non-whitespace
character requirement. -/
def zeroAt : List Char → Bool
  | c :: cs => if c = ':' then zeroAt2 cs else false
  | [] => false

/-- `compilerOutput.match(/:\s+0\s+errors\./i)` viewed as a Boolean test:
the pattern matches at some position of `s`. -/
def containsZeroErrors : List Char → Bool
  | [] => false
  | c :: cs => zeroAt (c :: cs) || containsZeroErrors cs

/-- `/(.+?):\s+0\s+errors\./i.test s`: as `containsZeroErrors`, but the colon
must be preceded by at least one `.`-matchable character (the `(.+?)` group).
This is the `zeroErrorsPattern` of `compileSmallBasicProgram`. -/
def zeroSummaryScan : List Char → Bool
  | a :: b :: rest => (dotChar a && zeroAt (b :: rest)) || zeroSummaryScan (b :: rest)
  | _ => false

/-- Tail of the summary pattern after the lazy group's colon:
`\s+([1-9][0-9]*)\s+errors?\.$`.  Returns the captured digit string.
Every step is forced (each greedy run is followed by a requirement no run
character can satisfy), and `$` demands the end of the line. -/
def summaryTail (s : List Char) : Option (List Char) :=
  match wsPlus s with
  | none => none
  | some t =>
    match digitsOf t with
    | ([], _) => none
    | (d :: ds, r) =>
      if d = '0' then none
      else
        match wsPlus r with
        | none => none
        | some u =>
          match parseCI "error".data u with
          | none => none
          | some v =>
            match v with
            | 's' :: w => if w = ['.'] then some (d :: ds) else none
            | 'S' :: w => if w = ['.'] then some (d :: ds) else none
            | '.' :: w => if w = [] then some (d :: ds) else none
            | _ => none

/-- Lazy scan for the colon of `/(.+?):\s+([1-9][0-9]*)\s+errors?\.$/i`, with
at least one group character already consumed: at each position, if the
current character is `:` try the tail; on failure the colon itself becomes a
group character (it is `.`-matchable) and the scan continues. -/
def summaryAfterOne : List Char → Option (List Char)
  | [] => none
  | c :: rest =>
    if c = ':' then
      match summaryTail rest with
      | some d => some d
      | none => summaryAfterOne rest
    else if dotChar c then summaryAfterOne rest
    else none

/-- A match of the summary pattern starting exactly at `s`: the first
character is consumed by `(.+?)` (so it must be `.`-matchable). -/
def summaryStart : List Char → Option (List Char)
  | [] => none
  | c :: rest => if dotChar c then summaryAfterOne rest else none

/-- `trimmedLine.match(/(.+?):\s+([1-9][0-9]*)\s+errors?\.$/i)`: leftmost
match; returns the captured error-count digit string (group 2). -/
def summaryCount : List Char → Option (List Char)
  | [] => none
  | c :: cs =>
    match summaryStart (c :: cs) with
    | some d => some d
    | none => summaryCount cs

/-- The longest suffix of `w` that starts at a `.`-matchable character
(used to emulate backtracking of a greedy `\s+` into a following `(.+)`
when nothing remains after the whitespace run). -/
def findLastDotStart : List Char → Option (List Char)
  | [] => none
  | c :: rest =>
    match findLastDotStart rest with
    | some r => some r
    | none => if dotChar c then some (c :: rest) else none

/-- `\s+(.+)` at the end of a pattern: a greedy whitespace run followed by a
greedy capture of `.`-matchable characters.  When nothing follows the
whitespace run, the run is backtracked from the right until a `.`-matchable
character can start the capture. -/
def wsPlusThenRest (s : List Char) : Option (List Char) :=
  let w := s.takeWhile isWs
  let r := s.dropWhile isWs
  if w.isEmpty then none
  else if r.isEmpty then
    match findLastDotStart (w.drop 1) with
    | some t => some (t.takeWhile dotChar)
    | none => none
  else some (r.takeWhile dotChar)

/-- `:?\s+(.+)`: an optional colon followed by `wsPlusThenRest`.  (If the
colon is present but the rest fails, dropping the colon cannot help: `\s+`
would then face the colon itself.) -/
def colonWsRest (s : List Char) : Option (List Char) :=
  match s with
  | ':' :: r => wsPlusThenRest r
  | _ => wsPlusThenRest s

/-- The detail pattern `/Line\s+(\d+)(?:,\s*Col\s+(\d+))?:\s+(.+)/i` matching
at the start of `s`: returns (line, optional column, message). -/
def detailAt (s : List Char) : Option (Nat × Option Nat × List Char) :=
  match parseCI "line".data s with
  | none => none
  | some s1 =>
    match wsPlus s1 with
    | none => none
    | some s2 =>
      match digitsOf s2 with
      | ([], _) => none
      | (d1, r1) =>
        match r1 with
        | ',' :: r2 =>
          match parseCI "col".data (r2.dropWhile isWs) with
          | none => none
          | some r3 =>
            match wsPlus r3 with
            | none => none
            | some r4 =>
              match digitsOf r4 with
              | ([], _) => none
              | (d2, r5) =>
                match r5 with
                | ':' :: r6 =>
                  match wsPlusThenRest r6 with
                  | some msg => some (natOfDigits d1, some (natOfDigits d2), msg)
                  | none => none
                | _ => none
        | ':' :: r2 =>
          match wsPlusThenRest r2 with
          | some msg => some (natOfDigits d1, none, msg)
          | none => none
        | _ => none

/-- Leftmost match of the detail pattern in `s`. -/
def searchDetail : List Char → Option (Nat × Option Nat × List Char)
  | [] => none
  | c :: cs =>
    match detailAt (c :: cs) with
    | some r => some r
    | none => searchDetail cs

/-- Pattern 1, `/Line\s+(\d+):\s+(.+)/i`, matching at the start of `s`. -/
def pat1At (s : List Char) : Option (Nat × List Char) :=
  match parseCI "line".data s with
  | none => none
  | some s1 =>
    match wsPlus s1 with
    | none => none
    | some s2 =>
      match digitsOf s2 with
      | ([], _) => none
      | (d, r) =>
        match r with
        | ':' :: r2 =>
          match wsPlusThenRest r2 with
          | some msg => some (natOfDigits d, msg)
          | none => none
        | _ => none

/-- Leftmost match of pattern 1 in `s`. -/
def searchPat1 : List Char → Option (Nat × List Char)
  | [] => none
  | c :: cs =>
    match pat1At (c :: cs) with
    | some r => some r
    | none => searchPat1 cs

/-- Continuation of pattern 0 after the lazy message group:
`\s+at\s+line\s+(\d+),?\s*column\s*(\d+)?`.  The literal `column` is
required; its digit capture is optional. -/
def pat0Cont (t : List Char) : Option (Nat × Option Nat) :=
  match wsPlus t with
  | none => none
  | some t1 =>
    match parseCI "at".data t1 with
    | none => none
    | some t2 =>
      match wsPlus t2 with
      | none => none
      | some t3 =>
        match parseCI "line".data t3 with
        | none => none
        | some t4 =>
          match wsPlus t4 with
          | none => none
          | some t5 =>
            match digitsOf t5 with
            | ([], _) => none
            | (d, r) =>
              let r1 := match r with
                | ',' :: x => x
                | x => x
              match parseCI "column".data (r1.dropWhile isWs) with
              | none => none
              | some r2 =>
                match digitsOf (r2.dropWhile isWs) with
                | ([], _) => some (natOfDigits d, none)
                | (ds, _) => some (natOfDigits d, some (natOfDigits ds))

/-- The lazy group `(.+?)` of pattern 0: grow the message one character at a
time (each must be `.`-matchable), attempting the continuation after each
character. -/
def pat0Msg (acc : List Char) : List Char → Option (List Char × Nat × Option Nat)
  | [] => none
  | c :: ts =>
    if dotChar c then
      match pat0Cont ts with
      | some (ln, col) => some ((c :: acc).reverse, ln, col)
      | none => pat0Msg (c :: acc) ts
    else none

/-- Backtracking of the greedy `\s+` that precedes the lazy group of
pattern 0: try whitespace runs of length `w`, `w-1`, …, `1`. -/
def pat0Try (t : List Char) : Nat → Option (List Char × Nat × Option Nat)
  | 0 => none
  | w + 1 =>
    match pat0Msg [] (t.drop (w + 1)) with
    | some r => some r
    | none => pat0Try t w

/-- Pattern 0, `/Error:\s+(.+?)\s+at\s+line\s+(\d+),?\s*column\s*(\d+)?/i`,
matching at the start of `s`: returns (message, line, optional column). -/
def pat0At (s : List Char) : Option (List Char × Nat × Option Nat) :=
  match parseCI "error:".data s with
  | none => none
  | some t => pat0Try t (t.takeWhile isWs).length

/-- Leftmost match of pattern 0 in `s`. -/
def searchPat0 : List Char → Option (List Char × Nat × Option Nat)
  | [] => none
  | c :: cs =>
    match pat0At (c :: cs) with
    | some r => some r
    | none => searchPat0 cs

/-- The optional group `(?:\s+at\s+line\s+(\d+))?` of the syntax pattern,
returning the captured digit string and the rest. -/
def synPatAtLine (s : List Char) : Option (List Char × List Char) :=
  match wsPlus s with
  | none => none
  | some s1 =>
    match parseCI "at".data s1 with
    | none => none
    | some s2 =>
      match wsPlus s2 with
      | none => none
      | some s3 =>
        match parseCI "line".data s3 with
        | none => none
        | some s4 =>
          match wsPlus s4 with
          | none => none
          | some s5 =>
            match digitsOf s5 with
            | ([], _) => none
            | (d, r) => some (d, r)

/-- Pattern 3, `/Syntax\s+error(?:\s+at\s+line\s+(\d+))?:?\s+(.+)/i`,
matching at the start of `s`: returns (optional group-1 digit string,
group-2 message).  The optional group is tried greedily; if its
continuation fails the group is dropped. -/
def synPatAt (s : List Char) : Option (Option (List Char) × List Char) :=
  match parseCI "syntax".data s with
  | none => none
  | some s1 =>
    match wsPlus s1 with
    | none => none
    | some s2 =>
      match parseCI "error".data s2 with
      | none => none
      | some s3 =>
        match synPatAtLine s3 with
        | some (d, s4) =>
          match colonWsRest s4 with
          | some msg => some (some d, msg)
          | none =>
            match colonWsRest s3 with
            | some msg => some (none, msg)
            | none => none
        | none =>
          match colonWsRest s3 with
          | some msg => some (none, msg)
          | none => none

/-- Leftmost match of the syntax pattern in `s`. -/
def synPatSearch : List Char → Option (Option (List Char) × List Char)
  | [] => none
  | c :: cs =>
    match synPatAt (c :: cs) with
    | some r => some r
    | none => synPatSearch cs

/-- Pattern 4, `/Error:\s+(.+)/i`, matching at the start of `s`. -/
def pat4At (s : List Char) : Option (List Char) :=
  match parseCI "error:".data s with
  | none => none
  | some t => wsPlusThenRest t

/-- Leftmost match of pattern 4 in `s`. -/
def searchPat4 : List Char → Option (List Char)
  | [] => none
  | c :: cs =>
    match pat4At (c :: cs) with
    | some r => some r
    | none => searchPat4 cs

/-- Case-insensitive substring test (`toLowerCase().includes`). -/
def containsCI (pat : List Char) : List Char → Bool
  | [] => matchCI pat []
  | c :: cs => matchCI pat (c :: cs) || containsCI pat cs

/-- `/0\s+errors/i` matching at the start of `s`. -/
def zeroLooseAt (s : List Char) : Bool :=
  match s with
  | '0' :: cs =>
    match wsPlus cs with
    | some r => matchCI "errors".data r
    | none => false
  | _ => false

/-- `trimmedLine.match(/0\s+errors/i)` as a Boolean test. -/
def zeroErrorsLoose : List Char → Bool
  | [] => false
  | c :: cs => zeroLooseAt (c :: cs) || zeroErrorsLoose cs

/-- A `CompilationError` record.  The `message` field is declared `string` in
the source but can hold `undefined` at runtime (one push site reads an
optional capture group), hence the `Option`. -/
structure CompilationError where
  message : Option (List Char)
  line : JsNum
  column : JsNum
  deriving DecidableEq

/-- Message of the synthetic summary record pushed by the main loop. -/
def summaryMsg (d : List Char) : List Char :=
  "The program has ".data ++ d ++ " errors. See detailed messages below.".data

/-- Message of the `File contains N errors` record (pattern 2 branch);
`N` is `parseInt` of the captured digits. -/
def countMsg (d : List Char) : List Char :=
  "File contains ".data ++ (Nat.repr (natOfDigits d)).data ++ " errors".data

/-- The ordered pattern set applied to one trimmed line, including the
branch-dispatch quirk of the source: the chosen push branch is selected by
substring tests on the matched pattern's source text, and the test
`pattern.source.includes("at\\s+line\\s+")` is also satisfied by the syntax
pattern's source, so a syntax-pattern match is pushed with
`message = match[1]` (the captured digits or `undefined`) and
`line = parseInt(match[2])` (usually `NaN`). -/
def generalStep (t : List Char) : List CompilationError :=
  match searchPat0 t with
  | some (msg, ln, col) => [⟨some msg, JsNum.num ln, optNum col⟩]
  | none =>
    match searchPat1 t with
    | some (ln, msg) => [⟨some msg, JsNum.num ln, JsNum.undef⟩]
    | none =>
      match summaryCount t with
      | some d => if 0 < natOfDigits d then [⟨some (countMsg d), JsNum.undef, JsNum.undef⟩] else []
      | none =>
        match synPatSearch t with
        | some (g1, g2) => [⟨g1, parseIntJs g2, JsNum.undef⟩]
        | none =>
          match searchPat4 t with
          | some msg => [⟨some msg, JsNum.undef, JsNum.undef⟩]
          | none =>
            if containsCI "error".data t && ! zeroErrorsLoose t then
              [⟨some t, JsNum.undef, JsNum.undef⟩]
            else []

/-- The line loop of `parseCompilerErrors`.  The Boolean argument is the
`lookForDetailedErrors` flag; when it is set and a summary was not matched,
the *next* line is tested against the detail pattern and, on success,
consumed. -/
def processLines : List (List Char) → Bool → List CompilationError
  | [], _ => []
  | l :: rest, flag =>
    let t := trimJS l
    if t.isEmpty then processLines rest flag
    else if containsZeroErrors t then processLines rest flag
    else
      match summaryCount t with
      | some d => ⟨some (summaryMsg d), JsNum.undef, JsNum.undef⟩ :: processLines rest true
      | none =>
        match flag, rest with
        | true, next :: rest2 =>
          match searchDetail (trimJS next) with
          | some (ln, col, msg) =>
            ⟨some msg, JsNum.num ln, optNum col⟩ :: processLines rest2 true
          | none => generalStep t ++ processLines (next :: rest2) true
        | b, r => generalStep t ++ processLines r b

/-- Message appended for an `If` line with no `Then`. -/
def missingThenMsg : List Char :=
  "If statement missing \"Then\" keyword".data

/-- Message appended for a line with an odd number of quotes. -/
def unclosedStringMsg : List Char :=
  "Unclosed string (uneven number of quotes)".data

/-- The trimmed source line starts with `if` (case-insensitively) and does
not contain `then`. -/
def missingThenLine (l : List Char) : Bool :=
  let t := trimJS l
  matchCI "if".data t && ! containsCI "then".data t

/-- The trimmed source line has an odd number of `"` characters and does not
start with the comment marker. -/
def unclosedStringLine (l : List Char) : Bool :=
  let t := trimJS l
  (t.count (Char.ofNat 34)) % 2 = 1 && ! (t.take 1 = [Char.ofNat 39])

/-- The per-source-line heuristic scan of the augmentation pass, producing
the appended records for source lines numbered from `i` (0-based). -/
def augmentScan : Nat → List (List Char) → List CompilationError
  | _, [] => []
  | i, l :: rest =>
    (if missingThenLine l then [⟨some missingThenMsg, JsNum.num (i + 1), JsNum.undef⟩] else [])
      ++ (if unclosedStringLine l then [⟨some unclosedStringMsg, JsNum.num (i + 1), JsNum.undef⟩] else [])
      ++ augmentScan (i + 1) rest

/-- Records appended by the augmentation pass: one copy of the scan result
for every record of the first pass whose `line` is `undefined`.  (Appended
records always carry a line number, so the source's growing-array iteration
never augments them in turn.) -/
def appendedFor : List CompilationError → List CompilationError → List CompilationError
  | [], _ => []
  | e :: rest, scan =>
    (if e.line = JsNum.undef then scan else []) ++ appendedFor rest scan

/-- Steps 1–2 of `parseCompilerErrors`: the zero-errors short-circuit and
the line loop. -/
def step12 (compilerOutput : List Char) : List CompilationError :=
  if containsZeroErrors compilerOutput then []
  else processLines (splitLines compilerOutput) false

/-- `parseCompilerErrors(compilerOutput, sourcePath)`.  The file system is
abstracted by `sourceContent`: `some src` when the source file exists and is
readable (with content `src`), `none` otherwise (including a read failure,
which the source swallows). -/
def parseCompilerErrors (compilerOutput : List Char) (sourceContent : Option (List Char)) :
    List CompilationError :=
  let es := step12 compilerOutput
  match sourceContent with
  | some src =>
    if es.isEmpty then es
    else es ++ appendedFor es (augmentScan 0 (splitLines src))
  | none => es

/-- A `CompilationResult`. -/
structure CompilationResult where
  success : Bool
  exePath : Option (List Char)
  errors : Option (List CompilationError)
  rawOutput : Option (List Char)
  deriving DecidableEq

/-- The synthetic error used when compilation nominally succeeded but the
output executable is missing. -/
def outputNotFoundMsg : List Char :=
  "Compilation supposedly succeeded but output file not found".data

/-- Message of the synthetic error used when compilation failed and no
error could be interpreted from the output. -/
def failedMsg (code : Int) (stdOut stdErr : List Char) : List Char :=
  "Compilation failed (exit code ".data ++ (Int.repr code).data ++ "): ".data
    ++ (if stdErr ≠ [] then stdErr else if stdOut ≠ [] then stdOut else "Unknown error".data)

/-- The `close`-event handler of `compileSmallBasicProgram`, as a pure
function.  `exeExists` abstracts `fs.existsSync(outputExe)`, `outputExe` the
computed artifact path, and `sourceContent` the readability/content of the
source file (as in `parseCompilerErrors`). -/
def closeHandler (code : Int) (stdOut stdErr : List Char) (exeExists : Bool)
    (outputExe : List Char) (sourceContent : Option (List Char)) (captureRaw : Bool) :
    CompilationResult :=
  let rawOutput := if captureRaw then
      some (stdOut ++ (if stdErr ≠ [] then "\nSTDERR:\n".data ++ stdErr else []))
    else none
  let hasZeroErrors := zeroSummaryScan stdOut || zeroSummaryScan stdErr
  if code = 0 ∨ hasZeroErrors then
    if exeExists then ⟨true, some outputExe, none, rawOutput⟩
    else
      let errors := parseCompilerErrors (stdOut ++ stdErr) sourceContent
      if errors.length > 0 then ⟨false, none, some errors, rawOutput⟩
      else ⟨false, none, some [⟨some outputNotFoundMsg, JsNum.undef, JsNum.undef⟩], rawOutput⟩
  else
    let errors := parseCompilerErrors (stdOut ++ stdErr) sourceContent
    ⟨false, none,
      some (if errors.length > 0 then errors
        else [⟨some (failedMsg code stdOut stdErr), JsNum.undef, JsNum.undef⟩]),
      rawOutput⟩

/-- One step of counting `\bkw\b` (case-insensitive, global) occurrences:
`prev` is the character preceding the current position (`none` at the start
of the text).  Word-boundary-delimited occurrences of an alphabetic keyword
cannot overlap, so counting every boundary-valid position agrees with the
source's `text.match(/\bkw\b/gi).length`. -/
def countWord (kw : List Char) : Option Char → List Char → Nat
  | _, [] => 0
  | prev, c :: cs =>
    (if (match prev with
          | some p => ! isWordChar p
          | none => true)
        && matchCI kw (c :: cs)
        && (match (c :: cs).drop kw.length with
          | d :: _ => ! isWordChar d
          | [] => true)
      then 1 else 0)
      + countWord kw (some c) cs

/-- `(text.match(/\b<kw>\b/gi) || []).length`. -/
def countKw (kw : String) (text : List Char) : Nat :=
  countWord kw.data none text

/-- A language-server diagnostic as built by `validateTextDocument`.  The
range is modelled by character offsets into the document text
(`textDocument.positionAt` is applied to `0` and `text.length` in the
source, i.e. the start and the end of the whole text). -/
structure SBDiagnostic where
  severity : Nat
  rangeStart : Nat
  rangeEnd : Nat
  message : List Char
  source : List Char
  deriving DecidableEq

/-- The diagnostic pushed for one unbalanced block kind: severity `Error`
(= 1), range spanning the whole document. -/
def mkDiag (text : List Char) (msg : String) : SBDiagnostic :=
  ⟨1, 0, text.length, msg.data, "Small Basic".data⟩

/-- `validateTextDocument`: for each of the four block kinds, compare the
whole-text counts of `\bKw\b` and `\bEndKw\b` matches and push a single
whole-document diagnostic when the openers outnumber the closers. -/
def validateTextDocument (text : List Char) : List SBDiagnostic :=
  (if countKw "If" text > countKw "EndIf" text then [mkDiag text "Missing EndIf statement"] else [])
    ++ (if countKw "While" text > countKw "EndWhile" text then [mkDiag text "Missing EndWhile statement"] else [])
    ++ (if countKw "For" text > countKw "EndFor" text then [mkDiag text "Missing EndFor statement"] else [])
    ++ (if countKw "Sub" text > countKw "EndSub" text then [mkDiag text "Missing EndSub statement"] else [])

/-- When no block kind has more opener-keyword matches than closer-keyword
matches, the analyzer emits nothing. -/
theorem validate_nil_of_counts_le (t : List Char)
    (h1 : countKw "If" t ≤ countKw "EndIf" t)
    (h2 : countKw "While" t ≤ countKw "EndWhile" t)
    (h3 : countKw "For" t ≤ countKw "EndFor" t)
    (h4 : countKw "Sub" t ≤ countKw "EndSub" t) :
    validateTextDocument t = [] := by
  unfold validateTextDocument
  rw [if_neg (by omega), if_neg (by omega), if_neg (by omega), if_neg (by omega)]
  rfl

end SmallBasic

namespace SmallBasic

/-- C6: a closer keyword with no matching opener never produces a
diagnostic: whenever no block kind's opener-match count exceeds its
closer-match count, `validateTextDocument` returns the empty list — extra
or unmatched closers are ignored, and only an excess of openers can emit
anything.  (Instantiated by the witness at the one-line document `EndFor`.) -/
theorem claim6_unmatched_closers_silent (t : List Char)
    (h1 : countKw "If" t ≤ countKw "EndIf" t)
    (h2 : countKw "While" t ≤ countKw "EndWhile" t)
    (h3 : countKw "For" t ≤ countKw "EndFor" t)
    (h4 : countKw "Sub" t ≤ countKw "EndSub" t) :
    validateTextDocument t = [] :=
  validate_nil_of_counts_le t h1 h2 h3 h4

/-- Witness for C6: a document containing exactly one stray `EndFor` and no
`For` yields an empty diagnostic list. -/
theorem claim6_witness :
    countKw "If" "EndFor".data ≤ countKw "EndIf" "EndFor".data
    ∧ countKw "While" "EndFor".data ≤ countKw "EndWhile" "EndFor".data
    ∧ countKw "For" "EndFor".data ≤ countKw "EndFor" "EndFor".data
    ∧ countKw "Sub" "EndFor".data ≤ countKw "EndSub" "EndFor".data
    ∧ validateTextDocument "EndFor".data = [] :=
  ⟨by decide, by decide, by decide, by decide,
    claim6_unmatched_closers_silent "EndFor".data (by decide) (by decide) (by decide) (by decide)⟩

/-- C7: a document in which every block kind has as many opener-keyword
matches as closer-keyword matches yields an empty diagnostic list.
(Instantiated by the witness at the nested four-line document
`If a Then` / `If b Then` / `EndIf` / `EndIf`.) -/
theorem claim7_balanced_yields_empty (t : List Char)
    (h1 : countKw "If" t = countKw "EndIf" t)
    (h2 : countKw "While" t = countKw "EndWhile" t)
    (h3 : countKw "For" t = countKw "EndFor" t)
    (h4 : countKw "Sub" t = countKw "EndSub" t) :
    validateTextDocument t = [] :=
  validate_nil_of_counts_le t (le_of_eq h1) (le_of_eq h2) (le_of_eq h3) (le_of_eq h4)

/-- Witness for C7: the four-line document `If a Then`, `If b Then`,
`EndIf`, `EndIf` has balanced counts and yields zero diagnostics. -/
theorem claim7_witness :
    countKw "If" "If a Then\nIf b Then\nEndIf\nEndIf".data
        = countKw "EndIf" "If a Then\nIf b Then\nEndIf\nEndIf".data
    ∧ countKw "While" "If a Then\nIf b Then\nEndIf\nEndIf".data
        = countKw "EndWhile" "If a Then\nIf b Then\nEndIf\nEndIf".data
    ∧ countKw "For" "If a Then\nIf b Then\nEndIf\nEndIf".data
        = countKw "EndFor" "If a Then\nIf b Then\nEndIf\nEndIf".data
    ∧ countKw "Sub" "If a Then\nIf b Then\nEndIf\nEndIf".data
        = countKw "EndSub" "If a Then\nIf b Then\nEndIf\nEndIf".data
    ∧ validateTextDocument "If a Then\nIf b Then\nEndIf\nEndIf".data = [] :=
  ⟨by decide, by decide, by decide, by decide,
    claim7_balanced_yields_empty "If a Then\nIf b Then\nEndIf\nEndIf".data
      (by decide) (by decide) (by decide) (by decide)⟩

/-- C1 counterexample: the claim promises one diagnostic per unmatched
opener, positioned at the opener's line/column and spanning the keyword.
But the document `If a` / `If b`, which has two unmatched `If` openers,
yields a single diagnostic; and for `x = 5` / `If a`, whose only `If`
begins at offset 6 (line 1, column 0), the single diagnostic spans the
whole document (offsets 0 to 10), not the keyword token. -/
theorem claim1_counterexample :
    (validateTextDocument "If a\nIf b".data).length = 1
    ∧ validateTextDocument "x = 5\nIf a".data
        = [⟨1, 0, 10, "Missing EndIf statement".data, "Small Basic".data⟩] := by
  exact ⟨by decide, by decide⟩

/-- C1 amended: when the `If` matches outnumber the `EndIf` matches and the
other three kinds are balanced or closer-heavy, the analyzer emits exactly
one diagnostic — `Missing EndIf statement`, severity Error, spanning the
whole document text — regardless of how many unmatched `If` openers there
are. -/
theorem claim1_amended_single_whole_document_diagnostic (t : List Char)
    (h1 : countKw "EndIf" t < countKw "If" t)
    (h2 : countKw "While" t ≤ countKw "EndWhile" t)
    (h3 : countKw "For" t ≤ countKw "EndFor" t)
    (h4 : countKw "Sub" t ≤ countKw "EndSub" t) :
    validateTextDocument t
      = [⟨1, 0, t.length, "Missing EndIf statement".data, "Small Basic".data⟩] := by
  unfold validateTextDocument
  rw [if_pos (by omega), if_neg (by omega), if_neg (by omega), if_neg (by omega)]
  rfl

/-- Witness for the amended C1: a document with exactly one `If` and no
`EndIf` yields exactly one whole-document diagnostic. -/
theorem claim1_witness :
    countKw "EndIf" "If a".data < countKw "If" "If a".data
    ∧ countKw "While" "If a".data ≤ countKw "EndWhile" "If a".data
    ∧ countKw "For" "If a".data ≤ countKw "EndFor" "If a".data
    ∧ countKw "Sub" "If a".data ≤ countKw "EndSub" "If a".data
    ∧ validateTextDocument "If a".data
        = [⟨1, 0, 4, "Missing EndIf statement".data, "Small Basic".data⟩] :=
  ⟨by decide, by decide, by decide, by decide,
    claim1_amended_single_whole_document_diagnostic "If a".data
      (by decide) (by decide) (by decide) (by decide)⟩

/-- C5 counterexample: the claim says a keyword occurrence that is not at
the start of a trimmed line — for example inside a string literal — is not
counted and produces no diagnostic, and that `Sub` opens a block only when
followed by an identifier.  But the document `x = "If"` (its only `If`
inside a string literal) and the document `Sub` (no following identifier)
each produce a diagnostic. -/
theorem claim5_counterexample :
    validateTextDocument "x = \"If\"".data ≠ []
    ∧ validateTextDocument "Sub".data ≠ [] := by
  exact ⟨by decide, by decide⟩

/-- C5 amended: keywords are matched as case-insensitive whole-word
occurrences anywhere in the document text — including inside string
literals and after other tokens — and `Sub` is counted without any
following identifier; such occurrences are counted and produce
diagnostics. -/
theorem claim5_amended_word_occurrences_counted :
    validateTextDocument "x = \"If\"".data
        = [⟨1, 0, 8, "Missing EndIf statement".data, "Small Basic".data⟩]
    ∧ validateTextDocument "Sub".data
        = [⟨1, 0, 3, "Missing EndSub statement".data, "Small Basic".data⟩] := by
  exact ⟨by decide, by decide⟩

/-- A case-insensitive prefix match survives appending to the subject. -/
theorem matchCI_append {pat s : List Char} (u : List Char) (h : matchCI pat s = true) :
    matchCI pat (s ++ u) = true := by
  induction pat generalizing s with
  | nil => rfl
  | cons p ps ih =>
    cases s with
    | nil => simp [matchCI] at h
    | cons c cs =>
      simp only [matchCI, Bool.and_eq_true] at h
      simp only [List.cons_append, matchCI, Bool.and_eq_true]
      exact ⟨h.1, ih h.2⟩

/-- `dropWhile` with a nonempty result is unchanged (up to the appended
tail) by appending to the subject. -/
theorem dropWhile_append_cons {p : Char → Bool} {l r : List Char} {a : Char} (u : List Char)
    (h : l.dropWhile p = a :: r) :
    (l ++ u).dropWhile p = a :: (r ++ u) := by
  induction l with
  | nil =>
    simp [List.dropWhile] at h
  | cons c cs ih =>
    by_cases hc : p c
    · simp only [List.dropWhile_cons, hc, if_true] at h
      simpa only [List.cons_append, List.dropWhile_cons, hc, if_true] using ih h
    · simp only [List.dropWhile_cons, hc, if_false] at h
      injection h with h1 h2
      subst h1
      subst h2
      simp [List.dropWhile_cons, hc]

/-- `wsPlus` with a result headed by a specific character commutes with
appending to the subject. -/
theorem wsPlus_append_cons {s r : List Char} {a : Char} (u : List Char)
    (h : wsPlus s = some (a :: r)) :
    wsPlus (s ++ u) = some (a :: (r ++ u)) := by
  cases s with
  | nil => simp [wsPlus] at h
  | cons c cs =>
    by_cases hc : isWs c
    · simp only [wsPlus, hc, if_true, Option.some.injEq] at h
      simp only [List.cons_append, wsPlus, hc, if_true, Option.some.injEq]
      exact dropWhile_append_cons u h
    · simp [wsPlus, hc] at h

/-- Stage-4 zero-errors matching survives appending. -/
theorem zeroAt4_append {ds : List Char} (u : List Char) (h : zeroAt4 ds = true) :
    zeroAt4 (ds ++ u) = true := by
  unfold zeroAt4 at h ⊢
  cases hw : wsPlus ds with
  | none => rw [hw] at h; exact absurd h (by simp)
  | some v =>
    rw [hw] at h
    cases v with
    | nil => simp [matchCI] at h
    | cons x v' =>
      rw [wsPlus_append_cons u hw]
      exact matchCI_append u h

/-- Stage-3 zero-errors matching survives appending. -/
theorem zeroAt3_append {t : List Char} (u : List Char) (h : zeroAt3 t = true) :
    zeroAt3 (t ++ u) = true := by
  cases t with
  | nil => simp [zeroAt3] at h
  | cons c ds =>
    by_cases hc : c = '0'
    · subst hc
      have h2 : zeroAt4 ds = true := by simpa [zeroAt3] using h
      simpa [zeroAt3] using zeroAt4_append u h2
    · simp [zeroAt3, hc] at h

/-- Stage-2 zero-errors matching survives appending. -/
theorem zeroAt2_append {cs : List Char} (u : List Char) (h : zeroAt2 cs = true) :
    zeroAt2 (cs ++ u) = true := by
  unfold zeroAt2 at h ⊢
  cases hw : wsPlus cs with
  | none => rw [hw] at h; exact absurd h (by simp)
  | some t =>
    rw [hw] at h
    cases t with
    | nil => simp [zeroAt3] at h
    | cons x t' =>
      rw [wsPlus_append_cons u hw]
      exact zeroAt3_append u h

/-- A zero-errors match at a position survives appending to the text. -/
theorem zeroAt_append {s : List Char} (u : List Char) (h : zeroAt s = true) :
    zeroAt (s ++ u) = true := by
  cases s with
  | nil => simp [zeroAt] at h
  | cons c cs =>
    by_cases hc : c = ':'
    · subst hc
      have h2 : zeroAt2 cs = true := by simpa [zeroAt] using h
      simpa [zeroAt] using zeroAt2_append u h2
    · simp [zeroAt, hc] at h

/-- A zero-errors match at the current position gives a successful search. -/
theorem containsZeroErrors_of_zeroAt {s : List Char} (h : zeroAt s = true) :
    containsZeroErrors s = true := by
  cases s with
  | nil => simp [zeroAt] at h
  | cons c cs => simp [containsZeroErrors, h]

/-- A successful zero-errors search survives appending to the text. -/
theorem containsZeroErrors_append (u : List Char) {s : List Char}
    (h : containsZeroErrors s = true) : containsZeroErrors (s ++ u) = true := by
  induction s with
  | nil => simp [containsZeroErrors] at h
  | cons c cs ih =>
    simp only [containsZeroErrors, Bool.or_eq_true] at h
    simp only [List.cons_append, containsZeroErrors, Bool.or_eq_true]
    rcases h with h | h
    · exact Or.inl (zeroAt_append u h)
    · exact Or.inr (ih h)

/-- A successful zero-errors search survives prepending to the text. -/
theorem containsZeroErrors_prepend (a : List Char) {s : List Char}
    (h : containsZeroErrors s = true) : containsZeroErrors (a ++ s) = true := by
  induction a with
  | nil => exact h
  | cons c cs ih =>
    show (zeroAt (c :: (cs ++ s)) || containsZeroErrors (cs ++ s)) = true
    simp [ih]

/-- A match of the named zero-summary pattern implies a successful search
for the bare `:\s+0\s+errors\.` pattern. -/
theorem containsZeroErrors_of_zeroSummaryScan :
    ∀ {s : List Char}, zeroSummaryScan s = true → containsZeroErrors s = true
  | a :: b :: rest, h => by
    have h' : (dotChar a && zeroAt (b :: rest) || zeroSummaryScan (b :: rest)) = true := h
    have step : containsZeroErrors (b :: rest) = true →
        containsZeroErrors (a :: b :: rest) = true := by
      intro hh
      show (zeroAt (a :: b :: rest) || containsZeroErrors (b :: rest)) = true
      simp [hh]
    rcases (by simpa using h' :
        (dotChar a = true ∧ zeroAt (b :: rest) = true) ∨ zeroSummaryScan (b :: rest) = true)
      with ⟨_, hz⟩ | hs
    · exact step (containsZeroErrors_of_zeroAt hz)
    · exact step (containsZeroErrors_of_zeroSummaryScan hs)

/-- Every element of `splitLinesAux pending acc s` is a contiguous segment
of the text it was invoked on. -/
theorem splitLinesAux_decomp :
    ∀ (s : List Char) (pending : Bool) (acc l : List Char),
      l ∈ splitLinesAux pending acc s →
      ∃ a b, acc.reverse ++ ((if pending then ['\r'] else []) ++ s) = a ++ (l ++ b)
  | [], false, acc, l, h => by
    simp only [splitLinesAux, List.mem_singleton] at h
    exact ⟨[], [], by simp [h]⟩
  | [], true, acc, l, h => by
    simp only [splitLinesAux, List.mem_singleton] at h
    exact ⟨[], [], by simp [h]⟩
  | c :: rest, false, acc, l, h => by
    by_cases hn : c = '\n'
    · subst hn
      rw [splitLinesAux, if_pos rfl] at h
      rcases List.mem_cons.mp h with rfl | h
      · exact ⟨[], '\n' :: rest, by simp⟩
      · obtain ⟨a, b, hab⟩ := splitLinesAux_decomp rest false [] l h
        simp only [List.reverse_nil, List.nil_append, Bool.false_eq_true, if_false] at hab
        exact ⟨acc.reverse ++ '\n' :: a, b, by simp [hab]⟩
    · by_cases hr : c = '\r'
      · subst hr
        rw [splitLinesAux, if_neg hn, if_pos rfl] at h
        obtain ⟨a, b, hab⟩ := splitLinesAux_decomp rest true acc l h
        simp only [if_pos] at hab
        exact ⟨a, b, by simpa using hab⟩
      · rw [splitLinesAux, if_neg hn, if_neg hr] at h
        obtain ⟨a, b, hab⟩ := splitLinesAux_decomp rest false (c :: acc) l h
        simp only [Bool.false_eq_true, if_false, List.nil_append] at hab
        exact ⟨a, b, by simpa using hab⟩
  | c :: rest, true, acc, l, h => by
    by_cases hn : c = '\n'
    · subst hn
      rw [splitLinesAux, if_pos rfl] at h
      rcases List.mem_cons.mp h with rfl | h
      · exact ⟨[], '\r' :: '\n' :: rest, by simp⟩
      · obtain ⟨a, b, hab⟩ := splitLinesAux_decomp rest false [] l h
        simp only [List.reverse_nil, List.nil_append, Bool.false_eq_true, if_false] at hab
        exact ⟨acc.reverse ++ '\r' :: '\n' :: a, b, by simp [hab]⟩
    · by_cases hr : c = '\r'
      · subst hr
        rw [splitLinesAux, if_neg hn, if_pos rfl] at h
        obtain ⟨a, b, hab⟩ := splitLinesAux_decomp rest true ('\r' :: acc) l h
        simp only [if_pos] at hab
        exact ⟨a, b, by simpa using hab⟩
      · rw [splitLinesAux, if_neg hn, if_neg hr] at h
        obtain ⟨a, b, hab⟩ := splitLinesAux_decomp rest false (c :: '\r' :: acc) l h
        simp only [Bool.false_eq_true, if_false, List.nil_append] at hab
        exact ⟨a, b, by simpa using hab⟩

/-- Every line produced by `splitLines` is a contiguous segment of the
original text. -/
theorem splitLines_decomp {s l : List Char} (h : l ∈ splitLines s) :
    ∃ a b, s = a ++ (l ++ b) := by
  have := splitLinesAux_decomp s false [] l h
  simpa using this

/-- C10: for every document the analyzer emits at most one diagnostic per
block kind — hence at most four in total — and every emitted diagnostic
spans the whole document text (offset 0 to the text length). -/
theorem claim10_at_most_one_per_kind_whole_range (t : List Char) :
    (validateTextDocument t).length ≤ 4
    ∧ (∀ d ∈ validateTextDocument t, d.rangeStart = 0 ∧ d.rangeEnd = t.length)
    ∧ (validateTextDocument t).countP (fun d => d.message == "Missing EndIf statement".data) ≤ 1
    ∧ (validateTextDocument t).countP (fun d => d.message == "Missing EndWhile statement".data) ≤ 1
    ∧ (validateTextDocument t).countP (fun d => d.message == "Missing EndFor statement".data) ≤ 1
    ∧ (validateTextDocument t).countP (fun d => d.message == "Missing EndSub statement".data) ≤ 1 := by
  refine ⟨?_, ?_, ?_, ?_, ?_, ?_⟩ <;>
    (unfold validateTextDocument; split_ifs <;> simp [mkDiag, List.countP_cons])

/-- C4: whenever some line of the raw compiler text matches the zero-errors
summary shape `<name>: 0 errors.` (case-insensitively), the interpreter
returns the empty error list, regardless of any other content of the text
and of the state of the source file. -/
theorem claim4_zero_summary_short_circuits (out : List Char) (src : Option (List Char))
    (h : ∃ l ∈ splitLines out, zeroSummaryScan l = true) :
    parseCompilerErrors out src = [] := by
  obtain ⟨l, hl, hz⟩ := h
  have hc : containsZeroErrors l = true := containsZeroErrors_of_zeroSummaryScan hz
  obtain ⟨a, b, rfl⟩ := splitLines_decomp hl
  have hall : containsZeroErrors (a ++ (l ++ b)) = true :=
    containsZeroErrors_prepend a (containsZeroErrors_append b hc)
  unfold parseCompilerErrors step12
  cases src <;> simp [hall]

/-- Witness for C4: the one-line text `prog.sb: 0 errors.`. -/
theorem claim4_witness :
    (∃ l ∈ splitLines "prog.sb: 0 errors.".data, zeroSummaryScan l = true)
    ∧ parseCompilerErrors "prog.sb: 0 errors.".data none = [] :=
  ⟨by decide, claim4_zero_summary_short_circuits "prog.sb: 0 errors.".data none (by decide)⟩

/-- C2 counterexample: for the three-line compiler text
`prog.sb: 2 errors.` / `Line 3, Col 1: Missing operand` /
`Line 7: Unexpected token` the claim promises at least three records, one of
them carrying line 3.  The interpreter returns only two records, and none
carries line 3: after the summary line sets the detail flag, the detail
check inspects the line after the current one, so the first detail line is
skipped without being parsed. -/
theorem claim2_counterexample :
    (parseCompilerErrors
        "prog.sb: 2 errors.\nLine 3, Col 1: Missing operand\nLine 7: Unexpected token".data
        none).length = 2
    ∧ ∀ e ∈ parseCompilerErrors
        "prog.sb: 2 errors.\nLine 3, Col 1: Missing operand\nLine 7: Unexpected token".data
        none, e.line ≠ JsNum.num 3 := by
  exact ⟨by decide, by decide⟩

/-- C2 amended: for that text the interpreter returns exactly two records —
the synthetic summary citing 2 errors, and the record for line 7 with
message `Unexpected token`; the detail line `Line 3, Col 1: Missing operand`
immediately after the summary is consumed by the next-line lookahead and
produces no record. -/
theorem claim2_amended_two_records :
    parseCompilerErrors
        "prog.sb: 2 errors.\nLine 3, Col 1: Missing operand\nLine 7: Unexpected token".data
        none
      = [⟨some "The program has 2 errors. See detailed messages below.".data,
            JsNum.undef, JsNum.undef⟩,
         ⟨some "Unexpected token".data, JsNum.num 7, JsNum.undef⟩] := by
  decide

/-- A source line that satisfies the missing-`Then` heuristic contributes
its record (at its 1-based line number, offset by the starting index `k`)
to the augmentation scan. -/
theorem missingThen_mem_augmentScan :
    ∀ (lines : List (List Char)) (k n : Nat) (l : List Char),
      lines.get? n = some l → missingThenLine l = true →
      (⟨some missingThenMsg, JsNum.num ((k + n : Nat) + 1), JsNum.undef⟩ : CompilationError)
        ∈ augmentScan k lines
  | [], _, n, _, h, _ => by simp at h
  | l0 :: rest, k, 0, l, h, hm => by
    simp only [List.get?_cons_zero, Option.some.injEq] at h
    subst h
    have hk : (k + 0 : Nat) = k := Nat.add_zero k
    rw [hk]
    simp [augmentScan, hm]
  | l0 :: rest, k, n + 1, l, h, hm => by
    simp only [List.get?_cons_succ] at h
    have ih := missingThen_mem_augmentScan rest (k + 1) n l h hm
    have harith : (k + 1 + n : Nat) = (k + (n + 1) : Nat) := by omega
    rw [harith] at ih
    simp only [augmentScan, List.mem_append]
    tauto

/-- When some first-pass record lacks a line number, every record of the
augmentation scan appears among the appended records. -/
theorem mem_appendedFor {x : CompilationError} {scan : List CompilationError} :
    ∀ {es : List CompilationError}, (∃ e ∈ es, e.line = JsNum.undef) → x ∈ scan →
      x ∈ appendedFor es scan
  | [], h, _ => by simp at h
  | e :: rest, h, hx => by
    simp only [appendedFor]
    obtain ⟨e', he', hl⟩ := h
    rcases List.mem_cons.mp he' with rfl | he'
    · exact List.mem_append.mpr (Or.inl (by simp [hl, hx]))
    · exact List.mem_append.mpr (Or.inr (mem_appendedFor ⟨e', he', hl⟩ hx))

/-- C8: whenever the first two steps of the interpreter produced at least
one record lacking a line number and the source file is readable, the
augmentation pass appends, for every source line that (after trimming)
begins with `if` (case-insensitively) and contains no `then`, an error
record with the missing-`Then` message at that line (1-based) — and the
first-pass records are kept unchanged as a prefix of the final list. -/
theorem claim8_missing_then_augmentation (out src : List Char) (n : Nat) (l : List Char)
    (h1 : ∃ e ∈ step12 out, e.line = JsNum.undef)
    (h2 : (splitLines src).get? n = some l)
    (h3 : missingThenLine l = true) :
    (⟨some missingThenMsg, JsNum.num (n + 1), JsNum.undef⟩ : CompilationError)
        ∈ parseCompilerErrors out (some src)
    ∧ ∃ appended, parseCompilerErrors out (some src) = step12 out ++ appended := by
  have hne : (step12 out).isEmpty = false := by
    obtain ⟨e, he, _⟩ := h1
    cases hs : step12 out with
    | nil => rw [hs] at he; simp at he
    | cons a as => simp
  have hp : parseCompilerErrors out (some src)
      = step12 out ++ appendedFor (step12 out) (augmentScan 0 (splitLines src)) := by
    unfold parseCompilerErrors
    simp [hne]
  refine ⟨?_, ⟨_, hp⟩⟩
  rw [hp]
  refine List.mem_append.mpr (Or.inr (mem_appendedFor h1 ?_))
  have := missingThen_mem_augmentScan (splitLines src) 0 n l h2 h3
  simpa using this

/-- Witness for C8: compiler output `Error: bad` (one record, no line) with
source file content `If x > 0`. -/
theorem claim8_witness :
    (∃ e ∈ step12 "Error: bad".data, e.line = JsNum.undef)
    ∧ (splitLines "If x > 0".data).get? 0 = some "If x > 0".data
    ∧ missingThenLine "If x > 0".data = true
    ∧ (⟨some missingThenMsg, JsNum.num 1, JsNum.undef⟩ : CompilationError)
        ∈ parseCompilerErrors "Error: bad".data (some "If x > 0".data) :=
  ⟨by decide, by decide, by decide,
    (claim8_missing_then_augmentation "Error: bad".data "If x > 0".data 0 "If x > 0".data
      (by decide) (by decide) (by decide)).1⟩

/-- C9: when the compiler exits with status 0 or its output carries a
zero-errors summary, but the expected executable is missing and the
interpreter finds no errors in the captured text, the assembler reports
failure with exactly the single synthetic output-file-not-found error. -/
theorem claim9_missing_artifact_synthetic_error (code : Int)
    (stdOut stdErr outputExe : List Char) (src : Option (List Char)) (captureRaw : Bool)
    (h1 : code = 0 ∨ (zeroSummaryScan stdOut || zeroSummaryScan stdErr) = true)
    (h2 : parseCompilerErrors (stdOut ++ stdErr) src = []) :
    (closeHandler code stdOut stdErr false outputExe src captureRaw).success = false
    ∧ (closeHandler code stdOut stdErr false outputExe src captureRaw).errors
        = some [⟨some outputNotFoundMsg, JsNum.undef, JsNum.undef⟩] := by
  rcases h1 with h1 | h1 <;> constructor <;> simp [closeHandler, h1, h2]

/-- Witness for C9: exit code 0, empty output, missing artifact. -/
theorem claim9_witness :
    ((0 : Int) = 0 ∨ (zeroSummaryScan [] || zeroSummaryScan []) = true)
    ∧ parseCompilerErrors ([] ++ []) none = []
    ∧ (closeHandler 0 [] [] false [] none false).success = false
    ∧ (closeHandler 0 [] [] false [] none false).errors
        = some [⟨some outputNotFoundMsg, JsNum.undef, JsNum.undef⟩] := by
  have h := claim9_missing_artifact_synthetic_error 0 [] [] [] none false
    (Or.inl rfl) (by decide)
  exact ⟨Or.inl rfl, by decide, h.1, h.2⟩

/-- C3: for the line `Syntax error: missing operand` — which matches the
syntax pattern and none of the higher-priority patterns — the claim (and
the unreachable `Syntax` dispatch branch of the source) expects one record
with message `Syntax error: missing operand` and no line.  The code instead
dispatches the match through the `at\s+line\s+` branch (that substring also
occurs in the syntax pattern's source text), storing the undefined group 1
as the message and `parseInt` of the message text (`NaN`) as the line. -/
theorem claim3_shadowed_dispatch_branch :
    parseCompilerErrors "Syntax error: missing operand".data none
      = [⟨none, JsNum.nan, JsNum.undef⟩] := by
  decide

end SmallBasic
